import Mathlib

/-!
Shallow embedding of the cinema showtime aggregation–enrichment pipeline of
this repository.  The repository ships the per-cinema module template, the
data schema and the CI callers of the pipeline (`src/unnamed/part_000`,
`src/unnamed/part_002`, `src/tokyo-cinema-scrapers/README.md`); the body of
`main_scraper.py` itself is not part of the source tree, so the orchestrator,
normalizer, dedup/merge, enrichment client and cache below are modelled from
the specification, while the per-cinema module template is embedded from
`src/unnamed/part_000` directly.
-/

namespace CinemaAgg

/-- Uppercase/lowercase ASCII letter table used by the title cleaner
(the spec lower-cases lookup keys; titles in this corpus are English ASCII). -/
def upperLower : List (Char × Char) :=
  [('A', 'a'), ('B', 'b'), ('C', 'c'), ('D', 'd'), ('E', 'e'), ('F', 'f'),
   ('G', 'g'), ('H', 'h'), ('I', 'i'), ('J', 'j'), ('K', 'k'), ('L', 'l'),
   ('M', 'm'), ('N', 'n'), ('O', 'o'), ('P', 'p'), ('Q', 'q'), ('R', 'r'),
   ('S', 's'), ('T', 't'), ('U', 'u'), ('V', 'v'), ('W', 'w'), ('X', 'x'),
   ('Y', 'y'), ('Z', 'z')]

/-- Lower-case one character via the letter table. -/
def lowerChar (c : Char) : Char :=
  match upperLower.find? (fun p => decide (p.1 = c)) with
  | some p => p.2
  | none => c

/-- Punctuation stripped by the title cleaner. -/
def isPunctChar (c : Char) : Bool :=
  decide (c = ':') || decide (c = ';') || decide (c = ',') || decide (c = '.') ||
  decide (c = '!') || decide (c = '?') || decide (c = '#') || decide (c = '*') ||
  decide (c = '&')

/-- Space test used when trimming. -/
def isSpaceChar (c : Char) : Bool := decide (c = ' ')

/-- Drop leading spaces. -/
def trimLeft (cs : List Char) : List Char := cs.dropWhile isSpaceChar

/-- Drop trailing spaces. -/
def trimRight (cs : List Char) : List Char := (cs.reverse.dropWhile isSpaceChar).reverse

/-- Modelled from the spec: the title-cleaning rules shared by the Normalizer
and the Enrichment Client key derivation — lower-case the title, strip the
bracketed suffix (everything from the first opening bracket on), strip
punctuation, and trim surrounding spaces.  `main_scraper.py`, which holds the
cleaning logic referenced by `src/unnamed/part_000`, is not in the source
tree. -/
def cleanChars (cs : List Char) : List Char :=
  trimRight (trimLeft (((cs.map lowerChar).takeWhile (fun c => !decide (c = '('))).filter
    (fun c => !isPunctChar c)))

/-- Title cleaning on strings: the lookup-key derivation of the Enrichment
Client (cleans "Aftersun (2022)" to "aftersun"). -/
def cleanTitle (s : String) : String := String.mk (cleanChars s.data)

lemma lowerChar_eq (c : Char) :
    lowerChar c = match upperLower.find? (fun p => decide (p.1 = c)) with
      | some p => p.2
      | none => c := rfl

lemma lowerChar_idem (c : Char) : lowerChar (lowerChar c) = lowerChar c := by
  cases h : upperLower.find? (fun p => decide (p.1 = c)) with
  | none =>
    have h1 : lowerChar c = c := by rw [lowerChar_eq, h]
    rw [h1]
    exact h1
  | some p =>
    have h1 : lowerChar c = p.2 := by rw [lowerChar_eq, h]
    have hp := List.mem_of_find?_eq_some h
    have hnone : upperLower.find? (fun q => decide (q.1 = p.2)) = none := by
      rw [List.find?_eq_none]
      intro q hq
      have hall : ∀ x ∈ upperLower, ∀ y ∈ upperLower, ¬ y.1 = x.2 := by decide
      simpa using hall p hp q hq
    rw [h1, lowerChar_eq, hnone]

lemma dropWhile_head_false (p : Char → Bool) :
    ∀ (l : List Char) (x : Char) (t : List Char), l.dropWhile p = x :: t → p x = false := by
  intro l
  induction l with
  | nil => intro x t h; simp at h
  | cons y ys ih =>
    intro x t h
    by_cases hy : p y = true
    · rw [List.dropWhile_cons, if_pos hy] at h
      exact ih x t h
    · rw [List.dropWhile_cons, if_neg hy] at h
      injection h with h1 h2
      subst h1
      simpa using hy

lemma dropWhile_self (p : Char → Bool) (l : List Char) :
    (l.dropWhile p).dropWhile p = l.dropWhile p := by
  cases h : l.dropWhile p with
  | nil => rfl
  | cons x t =>
    have hx := dropWhile_head_false p l x t h
    simp [List.dropWhile_cons, hx]

lemma dropWhile_eq_self_of (p : Char → Bool) (l : List Char)
    (h : ∀ x t, l = x :: t → p x = false) : l.dropWhile p = l := by
  cases l with
  | nil => rfl
  | cons x xs => simp [List.dropWhile_cons, h x xs rfl]

lemma trimRight_idem (l : List Char) : trimRight (trimRight l) = trimRight l := by
  unfold trimRight
  rw [List.reverse_reverse, dropWhile_self]

lemma trimRight_split (l : List Char) :
    l = trimRight l ++ (l.reverse.takeWhile isSpaceChar).reverse := by
  conv_lhs => rw [← List.reverse_reverse l,
    ← List.takeWhile_append_dropWhile (p := isSpaceChar) (l := l.reverse)]
  rw [List.reverse_append]
  rfl

lemma trimLeft_trimRight (l : List Char) :
    trimLeft (trimRight (trimLeft l)) = trimRight (trimLeft l) := by
  apply dropWhile_eq_self_of
  intro x t hxt
  have hsplit := trimRight_split (trimLeft l)
  rw [hxt] at hsplit
  exact dropWhile_head_false isSpaceChar l x
    (t ++ ((trimLeft l).reverse.takeWhile isSpaceChar).reverse) hsplit

lemma mem_dropWhile {x : Char} {p : Char → Bool} {l : List Char}
    (h : x ∈ l.dropWhile p) : x ∈ l := by
  rw [← List.takeWhile_append_dropWhile (p := p) (l := l)]
  exact List.mem_append_right _ h

lemma mem_takeWhile {x : Char} {p : Char → Bool} {l : List Char}
    (h : x ∈ l.takeWhile p) : x ∈ l := by
  rw [← List.takeWhile_append_dropWhile (p := p) (l := l)]
  exact List.mem_append_left _ h

lemma mem_trimLeft {x : Char} {l : List Char} (h : x ∈ trimLeft l) : x ∈ l :=
  mem_dropWhile h

lemma mem_trimRight {x : Char} {l : List Char} (h : x ∈ trimRight l) : x ∈ l := by
  unfold trimRight at h
  rw [List.mem_reverse] at h
  have h2 := mem_dropWhile h
  rwa [List.mem_reverse] at h2

lemma takeWhile_eq_self_of (p : Char → Bool) (l : List Char)
    (h : ∀ x ∈ l, p x = true) : l.takeWhile p = l := by
  induction l with
  | nil => rfl
  | cons x xs ih =>
    rw [List.takeWhile_cons, if_pos (h x (List.mem_cons_self x xs))]
    rw [ih (fun y hy => h y (List.mem_cons_of_mem x hy))]

lemma map_eq_self_of (f : Char → Char) (l : List Char)
    (h : ∀ x ∈ l, f x = x) : l.map f = l := by
  induction l with
  | nil => rfl
  | cons x xs ih =>
    rw [List.map_cons, h x (List.mem_cons_self x xs),
      ih (fun y hy => h y (List.mem_cons_of_mem x hy))]

lemma cleanChars_idem (cs : List Char) : cleanChars (cleanChars cs) = cleanChars cs := by
  have hmem : ∀ x ∈ cleanChars cs,
      x ∈ ((cs.map lowerChar).takeWhile (fun c => !decide (c = '('))) ∧
        (!isPunctChar x) = true := by
    intro x hx
    have h1 : x ∈ ((cs.map lowerChar).takeWhile (fun c => !decide (c = '('))).filter
        (fun c => !isPunctChar c) := mem_trimLeft (mem_trimRight hx)
    exact List.mem_filter.mp h1
  have hmap : (cleanChars cs).map lowerChar = cleanChars cs := by
    apply map_eq_self_of
    intro x hx
    have h2 : x ∈ cs.map lowerChar := mem_takeWhile (hmem x hx).1
    obtain ⟨c0, _, hc0⟩ := List.mem_map.mp h2
    rw [← hc0]
    exact lowerChar_idem c0
  have htake : (cleanChars cs).takeWhile (fun c => !decide (c = '(')) = cleanChars cs := by
    apply takeWhile_eq_self_of
    intro x hx
    have h3 := List.mem_takeWhile_imp (p := fun c => !decide (c = '('))
      (l := cs.map lowerChar) (hmem x hx).1
    simpa using h3
  have hfilter : (cleanChars cs).filter (fun c => !isPunctChar c) = cleanChars cs := by
    rw [List.filter_eq_self]
    intro x hx
    exact (hmem x hx).2
  show trimRight (trimLeft ((((cleanChars cs).map lowerChar).takeWhile
      (fun c => !decide (c = '('))).filter (fun c => !isPunctChar c))) = cleanChars cs
  rw [hmap, htake, hfilter]
  show trimRight (trimLeft (trimRight (trimLeft _))) = _
  rw [trimLeft_trimRight, trimRight_idem]
  rfl

/-- C10: Title-cleaning is idempotent — for every input string, applying the
cleaning function to its own output yields the same string as applying it
once: cleanTitle (cleanTitle t) = cleanTitle t. -/
theorem clean_title_idempotent (t : String) : cleanTitle (cleanTitle t) = cleanTitle t := by
  show String.mk (cleanChars (String.mk (cleanChars t.data)).data) = _
  rw [show (String.mk (cleanChars t.data)).data = cleanChars t.data from rfl, cleanChars_idem]
  rfl

/-- Raw listing record produced by a per-cinema Source Module, with the field
names of the module template and data schema in `src/unnamed/part_000`
(lines 93–105 and 117–137); a field a venue page does not provide is `none`. -/
structure RawListing where
  cinema_name : Option String
  movie_title : Option String
  date_text : Option String
  showtime : Option String
  detail_page_url : Option String
  director : Option String
  year : Option String
  country : Option String
  runtime_min : Option String
  synopsis : Option String
  deriving DecidableEq

/-- Enrichment fields populated by the Enrichment Client (the tmdb fields of
the schema in `src/unnamed/part_000` lines 130–137; the numeric average is
modelled as a scaled integer since no claim depends on its numeric type). -/
structure Enrichment where
  matched_title : String
  external_id : Nat
  poster_path : String
  backdrop_path : String
  overview : String
  genres : List String
  rating : Nat
  deriving DecidableEq

/-- Canonical listing: identity fields, descriptive fields (empty string when
unknown), and the enrichment block, absent until the Enrichment Client
populates it. -/
structure CanonicalListing where
  cinema_name : String
  movie_title : String
  date : String
  showtime : String
  detail_page_url : String
  director : String
  release_year : String
  country : String
  runtime_minutes : String
  synopsis : String
  enrichment : Option Enrichment := none
  deriving DecidableEq

/-- Modelled from the spec: the Normalizer — one RawListing in, one
CanonicalListing or a normalization failure out; a record missing any
identity-relevant field fails, every unknown optional field becomes the empty
string, and every canonical key is present by construction.  The body of
`main_scraper.py` holding this logic is not in the source tree; format
coercions on date and time are kept as the identity since no claim depends on
them. -/
def normalize (r : RawListing) : Option CanonicalListing :=
  r.cinema_name.bind fun cn =>
  r.movie_title.bind fun mt =>
  r.date_text.bind fun d =>
  r.showtime.bind fun st =>
  r.detail_page_url.map fun url =>
  { cinema_name := cn, movie_title := mt, date := d, showtime := st,
    detail_page_url := url,
    director := r.director.getD "", release_year := r.year.getD "",
    country := r.country.getD "", runtime_minutes := r.runtime_min.getD "",
    synopsis := r.synopsis.getD "", enrichment := none }

lemma normalize_some (r : RawListing) (c : CanonicalListing) (h : normalize r = some c) :
    r.cinema_name = some c.cinema_name ∧ r.movie_title = some c.movie_title ∧
    r.date_text = some c.date ∧ r.showtime = some c.showtime ∧
    r.detail_page_url = some c.detail_page_url ∧
    c.director = r.director.getD "" ∧ c.release_year = r.year.getD "" ∧
    c.country = r.country.getD "" ∧ c.runtime_minutes = r.runtime_min.getD "" ∧
    c.synopsis = r.synopsis.getD "" ∧ c.enrichment = none := by
  obtain ⟨cn, hcn⟩ : ∃ cn, r.cinema_name = some cn := by
    cases hcn : r.cinema_name
    · simp [normalize, hcn] at h
    · exact ⟨_, rfl⟩
  obtain ⟨mt, hmt⟩ : ∃ mt, r.movie_title = some mt := by
    cases hmt : r.movie_title
    · simp [normalize, hcn, hmt] at h
    · exact ⟨_, rfl⟩
  obtain ⟨d, hd⟩ : ∃ d, r.date_text = some d := by
    cases hd : r.date_text
    · simp [normalize, hcn, hmt, hd] at h
    · exact ⟨_, rfl⟩
  obtain ⟨st, hst⟩ : ∃ st, r.showtime = some st := by
    cases hst : r.showtime
    · simp [normalize, hcn, hmt, hd, hst] at h
    · exact ⟨_, rfl⟩
  obtain ⟨url, hurl⟩ : ∃ url, r.detail_page_url = some url := by
    cases hurl : r.detail_page_url
    · simp [normalize, hcn, hmt, hd, hst, hurl] at h
    · exact ⟨_, rfl⟩
  rw [normalize, hcn, hmt, hd, hst, hurl] at h
  simp only [Option.some_bind, Option.map_some'] at h
  cases h
  exact ⟨hcn, hmt, hd, hst, hurl, rfl, rfl, rfl, rfl, rfl, rfl⟩

lemma normalize_missing (r : RawListing)
    (h : r.cinema_name = none ∨ r.movie_title = none ∨ r.date_text = none ∨
      r.showtime = none ∨ r.detail_page_url = none) :
    normalize r = none := by
  cases hr : normalize r with
  | none => rfl
  | some c =>
    have hs := normalize_some r c hr
    rcases h with h | h | h | h | h <;> rw [h] at hs <;> simp at hs

/-- C7: normalization either produces a CanonicalListing whose canonical keys
are all present (by construction of the record type) with every unknown
optional field equal to the empty string — all optional fields present and
non-empty give no empty optional field, all optional fields absent give empty
strings — or, when an identity-relevant field is missing, fails so that the
record is dropped from the run without affecting the remaining records. -/
theorem normalize_canonical_fields (r : RawListing) :
    (∀ c, normalize r = some c →
      (c.director = r.director.getD "" ∧ c.release_year = r.year.getD "" ∧
       c.country = r.country.getD "" ∧ c.runtime_minutes = r.runtime_min.getD "" ∧
       c.synopsis = r.synopsis.getD "") ∧
      ((r.director = none ∧ r.year = none ∧ r.country = none ∧
        r.runtime_min = none ∧ r.synopsis = none) →
        c.director = "" ∧ c.release_year = "" ∧ c.country = "" ∧
        c.runtime_minutes = "" ∧ c.synopsis = "") ∧
      (∀ dv yv cv rv sv, r.director = some dv → r.year = some yv →
        r.country = some cv → r.runtime_min = some rv → r.synopsis = some sv →
        dv ≠ "" → yv ≠ "" → cv ≠ "" → rv ≠ "" → sv ≠ "" →
        c.director ≠ "" ∧ c.release_year ≠ "" ∧ c.country ≠ "" ∧
        c.runtime_minutes ≠ "" ∧ c.synopsis ≠ "")) ∧
    ((r.cinema_name = none ∨ r.movie_title = none ∨ r.date_text = none ∨
      r.showtime = none ∨ r.detail_page_url = none) → normalize r = none) ∧
    (normalize r = none →
      ∀ rs : List RawListing, (r :: rs).filterMap normalize = rs.filterMap normalize) := by
  refine ⟨?_, normalize_missing r, ?_⟩
  · intro c hc
    obtain ⟨-, -, -, -, -, h6, h7, h8, h9, h10, -⟩ := normalize_some r c hc
    refine ⟨⟨h6, h7, h8, h9, h10⟩, ?_, ?_⟩
    · rintro ⟨e1, e2, e3, e4, e5⟩
      rw [h6, h7, h8, h9, h10, e1, e2, e3, e4, e5]
      exact ⟨rfl, rfl, rfl, rfl, rfl⟩
    · intro dv yv cv rv sv p1 p2 p3 p4 p5 n1 n2 n3 n4 n5
      rw [h6, h7, h8, h9, h10, p1, p2, p3, p4, p5]
      exact ⟨n1, n2, n3, n4, n5⟩
  · intro hn rs
    rw [List.filterMap_cons, hn]

/-- Concrete raw listing with every field present and non-empty. -/
def rawFull : RawListing :=
  { cinema_name := some "HOME", movie_title := some "Aftersun",
    date_text := some "2025-03-01", showtime := some "18:30",
    detail_page_url := some "https://homemcr.org/aftersun",
    director := some "Charlotte Wells", year := some "2022",
    country := some "UK", runtime_min := some "102",
    synopsis := some "A father and daughter." }

/-- Concrete raw listing with all optional fields absent. -/
def rawBare : RawListing :=
  { cinema_name := some "HOME", movie_title := some "Aftersun",
    date_text := some "2025-03-01", showtime := some "18:30",
    detail_page_url := some "https://homemcr.org/aftersun",
    director := none, year := none, country := none, runtime_min := none,
    synopsis := none }

/-- Canonical listing that `rawFull` normalizes to. -/
def canonFull : CanonicalListing :=
  { cinema_name := "HOME", movie_title := "Aftersun", date := "2025-03-01",
    showtime := "18:30", detail_page_url := "https://homemcr.org/aftersun",
    director := "Charlotte Wells", release_year := "2022", country := "UK",
    runtime_minutes := "102", synopsis := "A father and daughter.",
    enrichment := none }

/-- Canonical listing that `rawBare` normalizes to. -/
def canonBare : CanonicalListing :=
  { canonFull with
      director := "", release_year := "", country := "",
      runtime_minutes := "", synopsis := "" }

/-- Closed witness for the C7 theorem on concrete raw listings: one with all
fields present and one with all optional fields absent. -/
theorem normalize_canonical_fields_witness :
    canonFull.director ≠ "" ∧ canonFull.release_year ≠ "" ∧ canonFull.country ≠ "" ∧
    canonFull.runtime_minutes ≠ "" ∧ canonFull.synopsis ≠ "" ∧
    canonBare.director = "" ∧ canonBare.release_year = "" ∧ canonBare.country = "" ∧
    canonBare.runtime_minutes = "" ∧ canonBare.synopsis = "" := by
  have hfull := (normalize_canonical_fields rawFull).1 canonFull (by decide)
  have hfq := hfull.2.2 "Charlotte Wells" "2022" "UK" "102" "A father and daughter."
    rfl rfl rfl rfl rfl (by decide) (by decide) (by decide) (by decide) (by decide)
  have hbare := ((normalize_canonical_fields rawBare).1 canonBare (by decide)).2.1
    ⟨rfl, rfl, rfl, rfl, rfl⟩
  exact ⟨hfq.1, hfq.2.1, hfq.2.2.1, hfq.2.2.2.1, hfq.2.2.2.2,
    hbare.1, hbare.2.1, hbare.2.2.1, hbare.2.2.2.1, hbare.2.2.2.2⟩

/-- The identity key of a listing: cinema_name, movie_title, date, showtime
and detail_page_url uniquely identify a listing within one run. -/
def identityKey (l : CanonicalListing) : String × String × String × String × String :=
  (l.cinema_name, l.movie_title, l.date, l.showtime, l.detail_page_url)

/-- Keep the first non-empty of two descriptive field values. -/
def mergeField (a b : String) : String := if a = "" then b else a

/-- Modelled from the spec: merge two duplicate listings, taking for each
descriptive field independently the first non-empty value (the dedup/merge
contract of the component design and the testable-properties section); the
identity fields of the first record are kept.  `main_scraper.py` is not in the
source tree. -/
def mergeTwo (a b : CanonicalListing) : CanonicalListing :=
  { a with
      director := mergeField a.director b.director,
      release_year := mergeField a.release_year b.release_year,
      country := mergeField a.country b.country,
      runtime_minutes := mergeField a.runtime_minutes b.runtime_minutes,
      synopsis := mergeField a.synopsis b.synopsis }

/-- Merge a whole duplicate group onto its first member, in source order. -/
def mergeGroup (x : CanonicalListing) (ys : List CanonicalListing) : CanonicalListing :=
  ys.foldl mergeTwo x

/-- First non-empty string of a list, or the empty string. -/
def firstNonEmpty : List String → String
  | [] => ""
  | s :: ss => if s = "" then firstNonEmpty ss else s

/-- Modelled from the spec: the last-non-empty-wins rule stated in the
data-model section, embedded from the spec words for comparison against the
first-non-empty rule the dedup/merge design prescribes. -/
def lastNonEmpty : List String → String
  | [] => ""
  | s :: ss => if lastNonEmpty ss = "" then s else lastNonEmpty ss

/-- Modelled from the spec: dedup/merge — group the run's listings by
identity key in input order and merge each group onto its first member, so
descriptive fields take the first non-empty value in source-registration
order; one output listing per identity key. -/
def dedupMerge : List CanonicalListing → List CanonicalListing
  | [] => []
  | x :: xs =>
    mergeGroup x (xs.filter (fun y => decide (identityKey y = identityKey x))) ::
      dedupMerge (xs.filter (fun y => !decide (identityKey y = identityKey x)))
termination_by l => l.length
decreasing_by
  simp only [List.length_cons]
  exact Nat.lt_succ_of_le (List.length_filter_le _ _)

lemma identityKey_mergeTwo (a b : CanonicalListing) :
    identityKey (mergeTwo a b) = identityKey a := rfl

lemma identityKey_mergeGroup (ys : List CanonicalListing) :
    ∀ x, identityKey (mergeGroup x ys) = identityKey x := by
  induction ys with
  | nil => intro x; rfl
  | cons y ys ih =>
    intro x
    show identityKey (mergeGroup (mergeTwo x y) ys) = _
    rw [ih, identityKey_mergeTwo]

lemma mergeGroup_field (f : CanonicalListing → String)
    (hf : ∀ a b, f (mergeTwo a b) = mergeField (f a) (f b)) :
    ∀ (ys : List CanonicalListing) (x : CanonicalListing),
      f (mergeGroup x ys) = firstNonEmpty (f x :: ys.map f) := by
  intro ys
  induction ys with
  | nil =>
    intro x
    show f x = firstNonEmpty [f x]
    by_cases h : f x = "" <;> simp [firstNonEmpty, h]
  | cons y ys ih =>
    intro x
    show f (mergeGroup (mergeTwo x y) ys) = _
    rw [ih, hf]
    by_cases h : f x = "" <;> simp [firstNonEmpty, mergeField, h]

lemma dedupMerge_keys (xs : List CanonicalListing) :
    ∀ d ∈ dedupMerge xs, ∃ y ∈ xs, identityKey d = identityKey y := by
  induction xs using dedupMerge.induct with
  | case1 => intro d hd; simp [dedupMerge] at hd
  | case2 x xs ih =>
    intro d hd
    rw [dedupMerge] at hd
    rcases List.mem_cons.mp hd with h | h
    · exact ⟨x, List.mem_cons_self x xs, by rw [h, identityKey_mergeGroup]⟩
    · obtain ⟨y, hy, hk⟩ := ih d h
      exact ⟨y, List.mem_cons_of_mem x (List.mem_filter.mp hy).1, hk⟩

lemma dedupMerge_pairwise (xs : List CanonicalListing) :
    (dedupMerge xs).Pairwise (fun a b => identityKey a ≠ identityKey b) := by
  induction xs using dedupMerge.induct with
  | case1 => simp [dedupMerge]
  | case2 x xs ih =>
    rw [dedupMerge]
    refine List.Pairwise.cons ?_ ih
    intro b hb
    obtain ⟨y, hy, hk⟩ := dedupMerge_keys _ b hb
    have hyx : identityKey y ≠ identityKey x := by
      simpa using (List.mem_filter.mp hy).2
    rw [identityKey_mergeGroup, hk]
    exact fun hc => hyx hc.symm

lemma dedupMerge_covers (xs : List CanonicalListing) :
    ∀ c ∈ xs, ∃ l ∈ dedupMerge xs, identityKey l = identityKey c := by
  induction xs using dedupMerge.induct with
  | case1 => intro c hc; simp at hc
  | case2 x xs ih =>
    intro c hc
    rcases List.mem_cons.mp hc with h | h
    · refine ⟨mergeGroup x (xs.filter (fun y => decide (identityKey y = identityKey x))),
        ?_, ?_⟩
      · rw [dedupMerge]; exact List.mem_cons_self _ _
      · rw [identityKey_mergeGroup, h]
    · by_cases hkx : identityKey c = identityKey x
      · refine ⟨mergeGroup x (xs.filter (fun y => decide (identityKey y = identityKey x))),
          ?_, ?_⟩
        · rw [dedupMerge]; exact List.mem_cons_self _ _
        · rw [identityKey_mergeGroup, hkx]
      · have hc2 : c ∈ xs.filter (fun y => !decide (identityKey y = identityKey x)) :=
          List.mem_filter.mpr ⟨h, by simpa using hkx⟩
        obtain ⟨l, hl, hkey⟩ := ih c hc2
        exact ⟨l, by rw [dedupMerge]; exact List.mem_cons_of_mem _ hl, hkey⟩

lemma dedupMerge_field (f : CanonicalListing → String)
    (hf : ∀ a b, f (mergeTwo a b) = mergeField (f a) (f b)) :
    ∀ (xs : List CanonicalListing), ∀ l ∈ dedupMerge xs,
      f l = firstNonEmpty ((xs.filter (fun y =>
        decide (identityKey y = identityKey l))).map f) := by
  intro xs
  induction xs using dedupMerge.induct with
  | case1 => intro l hl; simp [dedupMerge] at hl
  | case2 x xs ih =>
    intro l hl
    rw [dedupMerge] at hl
    rcases List.mem_cons.mp hl with h | h
    · have hkl : identityKey l = identityKey x := by rw [h, identityKey_mergeGroup]
      have hfn : (fun y => decide (identityKey y = identityKey l)) =
          (fun y => decide (identityKey y = identityKey x)) := by
        funext y
        rw [hkl]
      have hxs : (x :: xs).filter (fun y => decide (identityKey y = identityKey l)) =
          x :: xs.filter (fun y => decide (identityKey y = identityKey x)) := by
        rw [List.filter_cons, if_pos (by simp [hkl]), hfn]
      rw [hxs, List.map_cons, h, mergeGroup_field f hf]
    · have hlx : identityKey l ≠ identityKey x := by
        obtain ⟨y, hy, hk⟩ := dedupMerge_keys _ l h
        have hyx : identityKey y ≠ identityKey x := by
          simpa using (List.mem_filter.mp hy).2
        rw [hk]; exact hyx
      have h1 := ih l h
      rw [List.filter_filter] at h1
      have hfun : (fun y => decide (identityKey y = identityKey l) &&
          !decide (identityKey y = identityKey x)) =
          (fun y => decide (identityKey y = identityKey l)) := by
        funext y
        by_cases hyl : identityKey y = identityKey l
        · simp [hyl]
          exact hlx
        · simp [hyl]
      rw [hfun] at h1
      rw [List.filter_cons, if_neg (by simp; exact fun hc => hlx hc.symm)]
      exact h1

/-- C3: for every run, dedup/merge outputs exactly one CanonicalListing per
identity key — output keys are pairwise distinct and every input key is
represented — and each descriptive field of a merged record equals the first
non-empty value for that field among the group's members taken in
source-registration order. -/
theorem dedup_merge_first_non_empty (xs : List CanonicalListing) :
    (dedupMerge xs).Pairwise (fun a b => identityKey a ≠ identityKey b) ∧
    (∀ c ∈ xs, ∃ l ∈ dedupMerge xs, identityKey l = identityKey c) ∧
    ∀ l ∈ dedupMerge xs,
      l.director = firstNonEmpty ((xs.filter (fun y =>
        decide (identityKey y = identityKey l))).map CanonicalListing.director) ∧
      l.release_year = firstNonEmpty ((xs.filter (fun y =>
        decide (identityKey y = identityKey l))).map CanonicalListing.release_year) ∧
      l.country = firstNonEmpty ((xs.filter (fun y =>
        decide (identityKey y = identityKey l))).map CanonicalListing.country) ∧
      l.runtime_minutes = firstNonEmpty ((xs.filter (fun y =>
        decide (identityKey y = identityKey l))).map CanonicalListing.runtime_minutes) ∧
      l.synopsis = firstNonEmpty ((xs.filter (fun y =>
        decide (identityKey y = identityKey l))).map CanonicalListing.synopsis) := by
  refine ⟨dedupMerge_pairwise xs, dedupMerge_covers xs, fun l hl => ?_⟩
  exact ⟨dedupMerge_field CanonicalListing.director (fun a b => rfl) xs l hl,
    dedupMerge_field CanonicalListing.release_year (fun a b => rfl) xs l hl,
    dedupMerge_field CanonicalListing.country (fun a b => rfl) xs l hl,
    dedupMerge_field CanonicalListing.runtime_minutes (fun a b => rfl) xs l hl,
    dedupMerge_field CanonicalListing.synopsis (fun a b => rfl) xs l hl⟩

lemma dedupMerge_singleton (a : CanonicalListing) : dedupMerge [a] = [a] := by
  simp [dedupMerge, mergeGroup]

lemma dedupMerge_pair_eq (a b : CanonicalListing) (h : identityKey b = identityKey a) :
    dedupMerge [a, b] = [mergeTwo a b] := by
  rw [dedupMerge]
  rw [show ([b].filter (fun y => decide (identityKey y = identityKey a))) = [b] from
    by simp [h]]
  rw [show ([b].filter (fun y => !decide (identityKey y = identityKey a))) = [] from
    by simp [h]]
  rw [show dedupMerge [] = [] from by rw [dedupMerge]]
  rfl

lemma dedupMerge_pair_ne (a b : CanonicalListing) (h : identityKey b ≠ identityKey a) :
    dedupMerge [a, b] = [a, b] := by
  rw [dedupMerge]
  rw [show ([b].filter (fun y => decide (identityKey y = identityKey a))) = [] from
    by simp [h]]
  rw [show ([b].filter (fun y => !decide (identityKey y = identityKey a))) = [b] from
    by simp [h]]
  rw [dedupMerge_singleton]
  rfl

/-- Scenario B record with an empty director field. -/
def dupEmpty : CanonicalListing := { canonFull with director := "" }

/-- Closed witness for the C3 theorem at Scenario B: merging a record with
director "" and one with director "Charlotte Wells" yields
"Charlotte Wells". -/
theorem dedup_merge_first_non_empty_witness :
    (mergeTwo dupEmpty canonFull).director = "Charlotte Wells" ∧
    (mergeTwo dupEmpty canonFull).director =
      firstNonEmpty (([dupEmpty, canonFull].filter (fun y =>
        decide (identityKey y = identityKey (mergeTwo dupEmpty canonFull)))).map
        CanonicalListing.director) := by
  have hmem : mergeTwo dupEmpty canonFull ∈ dedupMerge [dupEmpty, canonFull] := by
    rw [dedupMerge_pair_eq dupEmpty canonFull (by decide)]
    exact List.mem_singleton.mpr rfl
  have h := (dedup_merge_first_non_empty [dupEmpty, canonFull]).2.2 _ hmem
  exact ⟨by decide, h.1⟩

/-- Duplicate pair with two different non-empty directors, on which the
first-non-empty and last-non-empty merge rules disagree. -/
def dupWells : CanonicalListing := { canonFull with director := "Wells" }

/-- Duplicate of `dupWells` with a different non-empty director. -/
def dupMills : CanonicalListing := { canonFull with director := "Mills" }

/-- Counterexample for C4: two duplicates with directors "Wells" then "Mills";
the merge keeps the FIRST non-empty value "Wells", while the
last-non-empty-wins rule claimed by the data-model section would give
"Mills". -/
theorem merge_last_non_empty_cex :
    dedupMerge [dupWells, dupMills] = [mergeTwo dupWells dupMills] ∧
    (mergeTwo dupWells dupMills).director = "Wells" ∧
    lastNonEmpty ([dupWells, dupMills].map CanonicalListing.director) = "Mills" ∧
    ("Wells" : String) ≠ "Mills" :=
  ⟨dedupMerge_pair_eq dupWells dupMills (by decide), by decide, by decide, by decide⟩

lemma mergeField_eq_firstNonEmpty (u v : String) :
    mergeField u v = firstNonEmpty [u, v] := by
  by_cases hu : u = ""
  · by_cases hv : v = "" <;> simp [mergeField, firstNonEmpty, hu, hv]
  · simp [mergeField, firstNonEmpty, hu]

/-- C4 (amended): two CanonicalListings with equal identity fields are
duplicates and are merged into a single retained record, but each descriptive
field of the merge takes the FIRST non-empty value in source order (the rule
of the dedup/merge design and the testable properties), not the last. -/
theorem duplicate_pair_merged_first_non_empty (a b : CanonicalListing)
    (h : identityKey a = identityKey b) :
    dedupMerge [a, b] = [mergeTwo a b] ∧
    (mergeTwo a b).director = firstNonEmpty [a.director, b.director] ∧
    (mergeTwo a b).release_year = firstNonEmpty [a.release_year, b.release_year] ∧
    (mergeTwo a b).country = firstNonEmpty [a.country, b.country] ∧
    (mergeTwo a b).runtime_minutes =
      firstNonEmpty [a.runtime_minutes, b.runtime_minutes] ∧
    (mergeTwo a b).synopsis = firstNonEmpty [a.synopsis, b.synopsis] :=
  ⟨dedupMerge_pair_eq a b h.symm,
   mergeField_eq_firstNonEmpty a.director b.director,
   mergeField_eq_firstNonEmpty a.release_year b.release_year,
   mergeField_eq_firstNonEmpty a.country b.country,
   mergeField_eq_firstNonEmpty a.runtime_minutes b.runtime_minutes,
   mergeField_eq_firstNonEmpty a.synopsis b.synopsis⟩

/-- Closed witness for the amended C4 theorem at the concrete duplicate
pair. -/
theorem duplicate_pair_merged_first_non_empty_witness :
    dedupMerge [dupWells, dupMills] = [mergeTwo dupWells dupMills] ∧
    (mergeTwo dupWells dupMills).director =
      firstNonEmpty [dupWells.director, dupMills.director] :=
  ⟨(duplicate_pair_merged_first_non_empty dupWells dupMills (by decide)).1,
   (duplicate_pair_merged_first_non_empty dupWells dupMills (by decide)).2.1⟩

/-- C9: two CanonicalListings whose detail_page_url values differ have
different identity keys — detail_page_url is part of identity — so dedup/merge
treats them as distinct and retains both. -/
theorem distinct_url_both_retained (a b : CanonicalListing)
    (h : a.detail_page_url ≠ b.detail_page_url) :
    identityKey a ≠ identityKey b ∧ dedupMerge [a, b] = [a, b] := by
  have hk : identityKey a ≠ identityKey b := by
    intro hc
    exact h (congrArg (fun t => t.2.2.2.2) hc)
  exact ⟨hk, dedupMerge_pair_ne a b (fun hc => hk hc.symm)⟩

/-- Scenario A listing from the first source. -/
def listingA : CanonicalListing :=
  { canonFull with detail_page_url := "https://homemcr.org/event/aftersun" }

/-- Scenario A listing from the second source: title differing only by case,
different detail page url. -/
def listingB : CanonicalListing :=
  { canonFull with
      movie_title := "AFTERSUN",
      detail_page_url := "https://everymancinema.com/aftersun" }

/-- Closed witness for the C9 theorem at Scenario A. -/
theorem distinct_url_both_retained_witness :
    identityKey listingA ≠ identityKey listingB ∧
    dedupMerge [listingA, listingB] = [listingA, listingB] :=
  distinct_url_both_retained listingA listingB (by decide)

/-- Candidate returned by the external metadata search: identifier, canonical
title, release year and the metadata fields of the schema (the numeric
average and popularity are modelled as scaled integers since no claim
depends on their numeric type). -/
structure Candidate where
  ext_id : Nat
  title : String
  release_year : Option Nat
  poster_path : String
  backdrop_path : String
  overview : String
  genres : List String
  rating : Nat
  popularity : Nat
  deriving DecidableEq

/-- Cache value: resolved metadata, or the explicit negative marker recorded
to avoid repeat negative lookups. -/
inductive CacheVal where
  | pos (c : Candidate)
  | neg
  deriving DecidableEq

/-- Persistent enrichment cache keyed by cleaned title (tmdb_cache.json in
the repository's workflow files). -/
abbrev Cache := List (String × CacheVal)

/-- Result of one enrichment lookup: the value, the updated cache, and the
number of external metadata calls performed. -/
structure LookupOut where
  value : CacheVal
  cache : Cache
  external_calls : Nat
  deriving DecidableEq

/-- Known broadcast brands, from `src/unnamed/part_000` lines 73 and 159
("NT Live, Met Opera, etc."). -/
def brandList : List String := ["NT Live", "Met Opera"]

/-- A candidate title carries a broadcast brand when it starts with one of the
known brand markers. -/
def hasBrand (t : String) : Bool := brandList.any (fun b => b.data.isPrefixOf t.data)

/-- The broadcast-brand filter: branded candidates are excluded from candidate
matches even if textually similar. -/
def brandFilter (cands : List Candidate) : List Candidate :=
  cands.filter (fun c => !hasBrand c.title)

/-- Highest-popularity candidate, the disambiguation tie-break heuristic. -/
def maxPop : List Candidate → Option Candidate
  | [] => none
  | c :: cs => some (cs.foldl (fun b x => if b.popularity < x.popularity then x else b) c)

/-- Modelled from the spec: disambiguation among the remaining candidates —
prefer an exact cleaned-title match, then a release-year match when a year
hint is present, otherwise the highest-popularity candidate; no candidate
means no match. -/
def pickCandidate (key : String) (yearHint : Option Nat)
    (cands : List Candidate) : Option Candidate :=
  match cands.filter (fun c => decide (cleanTitle c.title = key)) with
  | c :: _ => some c
  | [] =>
    match yearHint with
    | some y =>
      match cands.filter (fun c => decide (c.release_year = some y)) with
      | c :: _ => some c
      | [] => maxPop cands
    | none => maxPop cands

/-- Modelled from the spec: fetch_tmdb_details, the Enrichment Client lookup
named in `src/unnamed/part_000` line 156 whose body lives in the missing
`main_scraper.py` — derive the key by title cleaning, check the cache (a hit,
positive or negative, returns the cached result with zero external calls), on
a miss query the external source once, apply the broadcast-brand filter,
disambiguate, and write the resolved result or the negative marker to the
cache before returning. -/
def fetch_tmdb_details (ext : String → List Candidate) (cache : Cache)
    (title : String) (yearHint : Option Nat) : LookupOut :=
  match cache.lookup (cleanTitle title) with
  | some v => ⟨v, cache, 0⟩
  | none =>
    match pickCandidate (cleanTitle title) yearHint
        (brandFilter (ext (cleanTitle title))) with
    | some c => ⟨CacheVal.pos c, (cleanTitle title, CacheVal.pos c) :: cache, 1⟩
    | none => ⟨CacheVal.neg, (cleanTitle title, CacheVal.neg) :: cache, 1⟩

/-- Populate a listing's enrichment fields from a positive cache value; a
negative marker leaves the listing untouched, its enrichment fields empty. -/
def applyEnrichment (l : CanonicalListing) : CacheVal → CanonicalListing
  | CacheVal.pos c =>
    { l with
        enrichment := some ⟨c.title, c.ext_id, c.poster_path, c.backdrop_path,
          c.overview, c.genres, c.rating⟩ }
  | CacheVal.neg => l

/-- C2: a lookup whose key was previously resolved — to a positive match or to
the explicit negative marker — returns the cached result, leaves the cache
unchanged, and performs zero external calls; the statement holds for every
cache state, hence within a run and, the cache being persisted and reloaded,
in any later run. -/
theorem cache_hit_no_external_call (ext : String → List Candidate) (cache : Cache)
    (title : String) (yearHint : Option Nat) (v : CacheVal)
    (h : cache.lookup (cleanTitle title) = some v) :
    fetch_tmdb_details ext cache title yearHint = ⟨v, cache, 0⟩ := by
  unfold fetch_tmdb_details
  rw [h]

/-- Cached metadata entry for the key "aftersun". -/
def aftersunMeta : Candidate :=
  ⟨940721, "Aftersun", some 2022, "/aftersun.jpg", "/aftersun-bd.jpg",
    "A father and daughter.", ["Drama"], 76, 50⟩

/-- Cache pre-populated with the key "aftersun" (Scenario E). -/
def preCache : Cache := [("aftersun", CacheVal.pos aftersunMeta)]

/-- Closed witness for the C2 theorem at Scenario E: movie_title
"Aftersun (2022)" cleans to "aftersun" and resolves from the pre-populated
cache with zero external calls. -/
theorem cache_hit_no_external_call_witness :
    fetch_tmdb_details (fun _ => []) preCache "Aftersun (2022)" none =
      ⟨CacheVal.pos aftersunMeta, preCache, 0⟩ :=
  cache_hit_no_external_call (fun _ => []) preCache "Aftersun (2022)" none
    (CacheVal.pos aftersunMeta) (by decide)

lemma pickCandidate_nil (key : String) (yearHint : Option Nat) :
    pickCandidate key yearHint [] = none := by
  cases yearHint <;> rfl

/-- C8: the broadcast-brand filter excludes every candidate whose title
carries a known broadcast brand from the candidate set; when every candidate
the external source returns for a query is branded, the lookup resolves to
the negative marker and the listing's enrichment fields are left empty. -/
theorem broadcast_brand_excluded :
    (∀ (cands : List Candidate) (c : Candidate),
      c ∈ brandFilter cands → hasBrand c.title = false) ∧
    ∀ (ext : String → List Candidate) (cache : Cache) (title : String)
      (yearHint : Option Nat),
      cache.lookup (cleanTitle title) = none →
      (∀ c ∈ ext (cleanTitle title), hasBrand c.title = true) →
      (fetch_tmdb_details ext cache title yearHint).value = CacheVal.neg ∧
      ∀ l : CanonicalListing,
        applyEnrichment l (fetch_tmdb_details ext cache title yearHint).value = l := by
  constructor
  · intro cands c hc
    simpa using (List.mem_filter.mp hc).2
  · intro ext cache title yearHint hmiss hall
    have hfilters : brandFilter (ext (cleanTitle title)) = [] := by
      rw [brandFilter, List.filter_eq_nil_iff]
      intro c hc
      simp [hall c hc]
    have hval : fetch_tmdb_details ext cache title yearHint =
        ⟨CacheVal.neg, (cleanTitle title, CacheVal.neg) :: cache, 1⟩ := by
      unfold fetch_tmdb_details
      rw [hmiss, hfilters, pickCandidate_nil]
    rw [hval]
    exact ⟨rfl, fun l => rfl⟩

/-- The candidate "NT Live: Hamlet" returned as top match for the query
"Hamlet" (Scenario C). -/
def ntLiveHamlet : Candidate :=
  ⟨2, "NT Live: Hamlet", some 2015, "/nt.jpg", "/nt-bd.jpg",
    "Stage broadcast.", ["Drama"], 70, 90⟩

/-- External search that answers the query "hamlet" with the branded
candidate only. -/
def hamletSearch : String → List Candidate :=
  fun k => if k = "hamlet" then [ntLiveHamlet] else []

/-- Closed witness for the C8 theorem at Scenario C: with "NT Live: Hamlet"
as the only candidate for "Hamlet", the lookup is negative and the listing is
unchanged. -/
theorem broadcast_brand_excluded_witness :
    (fetch_tmdb_details hamletSearch [] "Hamlet" none).value = CacheVal.neg ∧
    applyEnrichment canonFull
      (fetch_tmdb_details hamletSearch [] "Hamlet" none).value = canonFull := by
  have h := broadcast_brand_excluded.2 hamletSearch [] "Hamlet" none
    (by decide) (by decide)
  exact ⟨h.1, h.2 canonFull⟩

/-- Per-source run status. -/
inductive SourceStatus where
  | ok
  | failed
  deriving DecidableEq

/-- SourceOutcome: one per Source Module per run — name, status, listing
count, and the error detail when failed (empty when ok). -/
structure SourceOutcome where
  source_name : String
  status : SourceStatus
  listing_count : Nat
  error_detail : String
  deriving DecidableEq

/-- Modelled from the spec: a registered Source Module — a name plus the
outcome of its one "produce showings" operation for this run: a finite
sequence of RawListing, or a failure with its detail.  Failure subsumes
network error, parse error and unexpected structure; a module still running
when the global timeout elapses is treated by the orchestrator as failed with
a timeout error_detail, which this sequential model represents as an error
result.  `main_scraper.py` is not in the source tree. -/
structure SourceModule where
  name : String
  run : Except String (List RawListing)

/-- Run one module at the module boundary: success yields its listings and an
ok outcome with their count; any failure is caught, contributes zero listings
and records a failed outcome carrying the error detail. -/
def runModule (m : SourceModule) : SourceOutcome × List RawListing :=
  match m.run with
  | Except.ok ls => (⟨m.name, SourceStatus.ok, ls.length, ""⟩, ls)
  | Except.error e => (⟨m.name, SourceStatus.failed, 0, e⟩, [])

/-- Modelled from the spec: the orchestrator executes every registered module
(results are order-independent, so the bounded-parallel execution is modelled
by its merged outcome), collecting one SourceOutcome per module and the
merged raw listing set. -/
def orchestrate (mods : List SourceModule) : List SourceOutcome × List RawListing :=
  (mods.map (fun m => (runModule m).1), (mods.map (fun m => (runModule m).2)).flatten)

/-- Enrich each listing in order, threading the cache through the run so
repeated keys observe earlier writes. -/
def enrichAll (ext : String → List Candidate) (cache : Cache) :
    List CanonicalListing → List CanonicalListing × Cache
  | [] => ([], cache)
  | l :: ls =>
    let out := fetch_tmdb_details ext cache l.movie_title l.release_year.toNat?
    let rest := enrichAll ext out.cache ls
    (applyEnrichment l out.value :: rest.1, rest.2)

/-- The persisted dataset of a run: scrape, normalize (dropping failures),
dedup/merge, enrich. -/
def finalDataset (mods : List SourceModule) (cache : Cache)
    (ext : String → List Candidate) : List CanonicalListing :=
  (enrichAll ext cache (dedupMerge ((orchestrate mods).2.filterMap normalize))).1

/-- Run Report: per-source outcomes, listing totals before and after
dedup/merge, and the failure flag. -/
structure RunReport where
  outcomes : List SourceOutcome
  total_before_dedup : Nat
  total_after_dedup : Nat
  has_failures : Bool
  deriving DecidableEq

/-- Modelled from the spec: the whole pipeline of one run — orchestrate all
modules, normalize, dedup/merge, enrich, and finalize the Run Report together
with the persisted dataset and the persisted cache. -/
def runPipeline (mods : List SourceModule) (cache : Cache)
    (ext : String → List Candidate) : RunReport × List CanonicalListing × Cache :=
  (⟨(orchestrate mods).1,
    ((orchestrate mods).2.filterMap normalize).length,
    (dedupMerge ((orchestrate mods).2.filterMap normalize)).length,
    (orchestrate mods).1.any (fun o => decide (o.status = SourceStatus.failed))⟩,
   finalDataset mods cache ext,
   (enrichAll ext cache (dedupMerge ((orchestrate mods).2.filterMap normalize))).2)

lemma identityKey_applyEnrichment (l : CanonicalListing) (v : CacheVal) :
    identityKey (applyEnrichment l v) = identityKey l := by
  cases v <;> rfl

lemma enrichAll_keys (ext : String → List Candidate) :
    ∀ (ls : List CanonicalListing) (cache : Cache),
      ((enrichAll ext cache ls).1).map identityKey = ls.map identityKey := by
  intro ls
  induction ls with
  | nil => intro cache; rfl
  | cons l ls ih =>
    intro cache
    show (applyEnrichment l _ :: (enrichAll ext _ ls).1).map identityKey = _
    rw [List.map_cons, List.map_cons, identityKey_applyEnrichment, ih]

lemma exists_key_of_map_eq {A B : List CanonicalListing}
    (h : A.map identityKey = B.map identityKey) {l : CanonicalListing} (hl : l ∈ B) :
    ∃ l2 ∈ A, identityKey l2 = identityKey l := by
  have hmem : identityKey l ∈ A.map identityKey := by
    rw [h]
    exact List.mem_map_of_mem identityKey hl
  obtain ⟨l2, hl2, hk⟩ := List.mem_map.mp hmem
  exact ⟨l2, hl2, hk⟩

lemma orchestrate_failed_mem (pre post : List SourceModule) (m : SourceModule)
    (e : String) (hm : m.run = Except.error e) :
    (⟨m.name, SourceStatus.failed, 0, e⟩ : SourceOutcome) ∈
      (orchestrate (pre ++ m :: post)).1 :=
  List.mem_map.mpr ⟨m, by simp, by simp [runModule, hm]⟩

lemma orchestrate_raws_drop (pre post : List SourceModule) (m : SourceModule)
    (e : String) (hm : m.run = Except.error e) :
    (orchestrate (pre ++ m :: post)).2 = (orchestrate (pre ++ post)).2 := by
  simp [orchestrate, runModule, hm]

lemma listing_in_finalDataset (mods : List SourceModule) (cache : Cache)
    (ext : String → List Candidate) (m2 : SourceModule) (hm2 : m2 ∈ mods)
    (ls : List RawListing) (hls : m2.run = Except.ok ls) (r : RawListing)
    (hr : r ∈ ls) (c : CanonicalListing) (hc : normalize r = some c) :
    ∃ l ∈ finalDataset mods cache ext, identityKey l = identityKey c := by
  have hrraw : r ∈ (orchestrate mods).2 := by
    show r ∈ (mods.map (fun m => (runModule m).2)).flatten
    rw [List.mem_flatten]
    exact ⟨ls, List.mem_map.mpr ⟨m2, hm2, by simp [runModule, hls]⟩, hr⟩
  have hc2 : c ∈ ((orchestrate mods).2).filterMap normalize :=
    List.mem_filterMap.mpr ⟨r, hrraw, hc⟩
  obtain ⟨l, hl, hk⟩ := dedupMerge_covers _ c hc2
  obtain ⟨l2, hl2, hk2⟩ := exists_key_of_map_eq
    (enrichAll_keys ext (dedupMerge (((orchestrate mods).2).filterMap normalize)) cache) hl
  exact ⟨l2, hl2, by rw [hk2, hk]⟩

lemma mem_middle {m2 m : SourceModule} {pre post : List SourceModule}
    (h : m2 ∈ pre ++ post) : m2 ∈ pre ++ m :: post := by
  rcases List.mem_append.mp h with h | h
  · exact List.mem_append_left _ h
  · exact List.mem_append_right _ (List.mem_cons_of_mem m h)

/-- C1: a failing Source Module — network error, parse error, timeout or
unexpected structure — is caught at the module boundary: a SourceOutcome with
status failed and the error detail is recorded, the module contributes zero
listings (the merged raw set equals that of the run without it, so the final
persisted dataset is unchanged), and the listings produced by every other
module still appear in the final persisted dataset; no single module's
failure aborts the run. -/
theorem source_failure_isolated (pre post : List SourceModule) (m : SourceModule)
    (e : String) (hm : m.run = Except.error e) (cache : Cache)
    (ext : String → List Candidate) :
    (⟨m.name, SourceStatus.failed, 0, e⟩ : SourceOutcome) ∈
      (orchestrate (pre ++ m :: post)).1 ∧
    (orchestrate (pre ++ m :: post)).2 = (orchestrate (pre ++ post)).2 ∧
    finalDataset (pre ++ m :: post) cache ext = finalDataset (pre ++ post) cache ext ∧
    ∀ m2 ∈ pre ++ post, ∀ ls, m2.run = Except.ok ls → ∀ r ∈ ls, ∀ c,
      normalize r = some c →
      ∃ l ∈ finalDataset (pre ++ m :: post) cache ext,
        identityKey l = identityKey c := by
  refine ⟨orchestrate_failed_mem pre post m e hm, orchestrate_raws_drop pre post m e hm,
    ?_, ?_⟩
  · unfold finalDataset
    rw [orchestrate_raws_drop pre post m e hm]
  · intro m2 hm2 ls hls r hr c hc
    exact listing_in_finalDataset (pre ++ m :: post) cache ext m2 (mem_middle hm2)
      ls hls r hr c hc

/-- Healthy module used by the orchestration witnesses. -/
def mOk : SourceModule := ⟨"HOME Manchester", Except.ok [rawFull]⟩

/-- Module failing with a network error. -/
def mFail : SourceModule := ⟨"Cultplex", Except.error "network error: connection refused"⟩

/-- Closed witness for the C1 theorem: one healthy module and one failing
module. -/
theorem source_failure_isolated_witness :
    (⟨"Cultplex", SourceStatus.failed, 0, "network error: connection refused"⟩ :
      SourceOutcome) ∈ (orchestrate [mOk, mFail]).1 ∧
    finalDataset [mOk, mFail] [] (fun _ => []) =
      finalDataset [mOk] [] (fun _ => []) := by
  have h := source_failure_isolated [mOk] [] mFail
    "network error: connection refused" rfl [] (fun _ => [])
  exact ⟨h.1, h.2.2.1⟩

/-- C5: a Source Module that raises a timeout error (a module still running
when the global timeout elapses being treated exactly as such a failure) is
recorded in the Run Report with status failed, its non-empty error_detail and
listing_count 0, the report's failure flag is set, and the listings of every
other source are still represented in the output dataset. -/
theorem timeout_reported_others_kept (pre post : List SourceModule)
    (m : SourceModule) (e : String) (hm : m.run = Except.error e) (he : e ≠ "")
    (cache : Cache) (ext : String → List Candidate) :
    (⟨m.name, SourceStatus.failed, 0, e⟩ : SourceOutcome) ∈
      (runPipeline (pre ++ m :: post) cache ext).1.outcomes ∧
    e ≠ "" ∧
    (runPipeline (pre ++ m :: post) cache ext).1.has_failures = true ∧
    ∀ m2 ∈ pre ++ post, ∀ ls, m2.run = Except.ok ls → ∀ r ∈ ls, ∀ c,
      normalize r = some c →
      ∃ l ∈ (runPipeline (pre ++ m :: post) cache ext).2.1,
        identityKey l = identityKey c := by
  have hmem := orchestrate_failed_mem pre post m e hm
  refine ⟨hmem, he, ?_, ?_⟩
  · show ((orchestrate (pre ++ m :: post)).1.any
      (fun o => decide (o.status = SourceStatus.failed))) = true
    rw [List.any_eq_true]
    exact ⟨_, hmem, by simp⟩
  · intro m2 hm2 ls hls r hr c hc
    exact listing_in_finalDataset (pre ++ m :: post) cache ext m2 (mem_middle hm2)
      ls hls r hr c hc

/-- Module whose run exceeds the deadline and is treated as failed with a
timeout error detail. -/
def mTimeout : SourceModule := ⟨"The Light", Except.error "timeout after 300s"⟩

/-- Closed witness for the C5 theorem: a healthy module plus one that timed
out. -/
theorem timeout_reported_others_kept_witness :
    (⟨"The Light", SourceStatus.failed, 0, "timeout after 300s"⟩ : SourceOutcome) ∈
      (runPipeline [mOk, mTimeout] [] (fun _ => [])).1.outcomes ∧
    (runPipeline [mOk, mTimeout] [] (fun _ => [])).1.has_failures = true := by
  have h := timeout_reported_others_kept [mOk] [] mTimeout "timeout after 300s"
    rfl (by decide) [] (fun _ => [])
  exact ⟨h.1, h.2.2.1⟩

/-- Embedded from `src/unnamed/part_000` lines 78–111: the per-cinema module
template — the whole scrape body runs inside one try/except whose handler
prints the error and returns the empty list; `attempt` stands for the outcome
of the try block, the fetched-and-parsed showings or the raised exception's
message. -/
def scrape_cinema_name (attempt : Except String (List RawListing)) : List RawListing :=
  match attempt with
  | Except.ok listings => listings
  | Except.error _ => []

/-- A Source Module built from the template: its "produce showings" operation
always returns normally. -/
def templateModule (nm : String) (attempt : Except String (List RawListing)) :
    SourceModule :=
  ⟨nm, Except.ok (scrape_cinema_name attempt)⟩

/-- C6 (implicit): the template catches every exception internally and
returns an empty list, so a module following it never signals failure to the
orchestrator: its outcome always has status ok, and an internal error is
indistinguishable at the orchestrator boundary from a genuinely empty
schedule — it is recorded as a successful SourceOutcome with zero listings
and empty error detail rather than as a failed one. -/
theorem template_module_failure_invisible (nm : String)
    (attempt : Except String (List RawListing)) :
    (runModule (templateModule nm attempt)).1.status = SourceStatus.ok ∧
    ∀ e, attempt = Except.error e →
      runModule (templateModule nm attempt) =
        runModule (templateModule nm (Except.ok [])) ∧
      (runModule (templateModule nm attempt)).1 = ⟨nm, SourceStatus.ok, 0, ""⟩ := by
  constructor
  · rfl
  · intro e he
    rw [he]
    exact ⟨rfl, rfl⟩

/-- Closed witness for the C6 theorem: a template module whose body raised a
parse error. -/
theorem template_module_failure_invisible_witness :
    (runModule (templateModule "HOME Manchester" (Except.error "parse error"))).1 =
      ⟨"HOME Manchester", SourceStatus.ok, 0, ""⟩ ∧
    runModule (templateModule "HOME Manchester" (Except.error "parse error")) =
      runModule (templateModule "HOME Manchester" (Except.ok [])) := by
  have h := template_module_failure_invisible "HOME Manchester"
    (Except.error "parse error")
  exact ⟨(h.2 "parse error" rfl).2, (h.2 "parse error" rfl).1⟩

end CinemaAgg
